import Mathlib

/-!
Shallow embedding of `src/Rate Limiter/task3_rate_limiter.py`.

Timestamps (Python floats used as seconds) are idealised as exact rationals
`ℚ`; Python integers are `ℤ`.  The `round(x, 2)` presentation applied to
`time_until_reset` in the Python source is a float-display artefact and is
abstracted away: the embedded operations return the exact value the source
computes before rounding.  The `threading.Lock` is irrelevant for the
sequential semantics modelled here; each operation is embedded as a pure
state-passing function.  The optional `current_time=None` branch (which reads
the wall clock) is not modelled: every embedded call takes an explicit
timestamp, as the claims require.
-/

namespace RateLimiterSpec

/-- The field `self._requests`: a `defaultdict(str -> deque[float])`, embedded as an
association list in insertion order (Python dicts preserve insertion
order). -/
abbrev ReqMap := List (String × List ℚ)

/-- Dictionary lookup: first binding of the key, if any. -/
def dictFind : ReqMap → String → Option (List ℚ)
  | [], _ => none
  | (k', v) :: rest, k => if k' = k then some v else dictFind rest k

/-- Membership test `user_id in self._requests`. -/
def dictHas (m : ReqMap) (k : String) : Bool :=
  (dictFind m k).isSome

/-- Reading `self._requests[user_id]` through the `defaultdict`: the stored
deque, or a fresh empty one when the key is absent. -/
def dictGet (m : ReqMap) (k : String) : List ℚ :=
  (dictFind m k).getD []

/-- Writing back the (mutated) deque for a key: replace the first binding if
present, otherwise append a new binding at the end (Python dict insertion
order). -/
def dictSet : ReqMap → String → List ℚ → ReqMap
  | [], k, v => [(k, v)]
  | (k', v') :: rest, k, v =>
      if k' = k then (k, v) :: rest else (k', v') :: dictSet rest k v

/-- Deletion `del self._requests[user_id]`: drop every binding of the key. -/
def dictDel (m : ReqMap) (k : String) : ReqMap :=
  m.filter (fun p => decide (p.1 ≠ k))

/-- The eviction loop
`while user_requests and user_requests[0] < cutoff_time: user_requests.popleft()`:
pop from the front while the head is strictly below the cutoff. -/
def evict (cutoff : ℚ) : List ℚ → List ℚ
  | [] => []
  | t :: rest => if t < cutoff then evict cutoff rest else t :: rest

/-- The limiter state: the two configuration integers fixed in `__init__`
plus the per-user timestamp map. -/
structure RateLimiter where
  max_requests : ℤ
  window_seconds : ℤ
  requests : ReqMap
deriving Repr, DecidableEq

/-- Constructor `RateLimiter.__init__`: raises `ValueError` (embedded as `Except.error`
with the message string) when `max_requests <= 0` or `window_seconds <= 0`,
otherwise returns the fresh instance with an empty request map. -/
def RateLimiter.init (max_requests window_seconds : ℤ) :
    Except String RateLimiter :=
  if max_requests ≤ 0 then
    Except.error "max_requests must be positive"
  else if window_seconds ≤ 0 then
    Except.error "window_seconds must be positive"
  else
    Except.ok ⟨max_requests, window_seconds, []⟩

/-- The info dictionary returned by `is_allowed`.  Fields present only on one
branch of the Python source are `Option`s (`remaining_requests` only on
admission, `time_until_reset` only on rejection). -/
structure AllowInfo where
  allowed : Bool
  user_id : String
  current_requests : ℕ
  max_requests : ℤ
  window_seconds : ℤ
  remaining_requests : Option ℤ
  time_until_reset : Option ℚ
deriving Repr, DecidableEq

/-- Method `RateLimiter.is_allowed(user_id, current_time)`: evict expired entries,
then reject (reporting `time_until_reset`) or admit (appending
`current_time`).  Returns the `(bool, info)` pair together with the
post-state.  On the rejection path the Python source reads
`user_requests[0]`; the embedding uses `headD 0` and the safety of that
access (non-emptiness) is proved separately. -/
def RateLimiter.is_allowed (rl : RateLimiter) (user_id : String)
    (current_time : ℚ) : Bool × AllowInfo × RateLimiter :=
  let user_requests₀ := dictGet rl.requests user_id
  let cutoff_time := current_time - (rl.window_seconds : ℚ)
  let user_requests := evict cutoff_time user_requests₀
  let request_count := user_requests.length
  if (request_count : ℤ) ≥ rl.max_requests then
    let oldest_request := user_requests.headD 0
    let time_until_reset :=
      (rl.window_seconds : ℚ) - (current_time - oldest_request)
    (false,
      { allowed := false
        user_id := user_id
        current_requests := request_count
        max_requests := rl.max_requests
        window_seconds := rl.window_seconds
        remaining_requests := none
        time_until_reset := some time_until_reset },
      { rl with requests := dictSet rl.requests user_id user_requests })
  else
    let new_requests := user_requests ++ [current_time]
    (true,
      { allowed := true
        user_id := user_id
        current_requests := request_count + 1
        max_requests := rl.max_requests
        window_seconds := rl.window_seconds
        remaining_requests :=
          some (rl.max_requests - ((request_count : ℤ) + 1))
        time_until_reset := none },
      { rl with requests := dictSet rl.requests user_id new_requests })

/-- The info dictionary returned by `get_status`. -/
structure StatusInfo where
  user_id : String
  current_requests : ℕ
  max_requests : ℤ
  window_seconds : ℤ
  remaining_requests : ℤ
  time_until_reset : ℚ
  is_allowed : Bool
deriving Repr, DecidableEq

/-- Method `RateLimiter.get_status(user_id, current_time)`: evict expired entries
(a side effect on the state), report counts, `max(0, ...)`-clamped time
until reset (0 when no entries remain), and the `count < max_requests`
prediction.  Never appends. -/
def RateLimiter.get_status (rl : RateLimiter) (user_id : String)
    (current_time : ℚ) : StatusInfo × RateLimiter :=
  let user_requests₀ := dictGet rl.requests user_id
  let cutoff_time := current_time - (rl.window_seconds : ℚ)
  let user_requests := evict cutoff_time user_requests₀
  let request_count := user_requests.length
  let time_until_reset :=
    match user_requests with
    | [] => 0
    | oldest_request :: _ =>
        max 0 ((rl.window_seconds : ℚ) - (current_time - oldest_request))
  ({ user_id := user_id
     current_requests := request_count
     max_requests := rl.max_requests
     window_seconds := rl.window_seconds
     remaining_requests := rl.max_requests - (request_count : ℤ)
     time_until_reset := time_until_reset
     is_allowed := decide ((request_count : ℤ) < rl.max_requests) },
   { rl with requests := dictSet rl.requests user_id user_requests })

/-- Method `RateLimiter.reset_user(user_id)`:
`if user_id in self._requests: del self._requests[user_id]`. -/
def RateLimiter.reset_user (rl : RateLimiter) (user_id : String) :
    RateLimiter :=
  if dictHas rl.requests user_id then
    { rl with requests := dictDel rl.requests user_id }
  else
    rl

/-- Method `RateLimiter.reset_all()`: `self._requests.clear()`. -/
def RateLimiter.reset_all (rl : RateLimiter) : RateLimiter :=
  { rl with requests := [] }

/-! ### Basic dictionary lemmas -/

theorem dictFind_dictSet_self (m : ReqMap) (k : String) (v : List ℚ) :
    dictFind (dictSet m k v) k = some v := by
  induction m with
  | nil => simp [dictSet, dictFind]
  | cons p rest ih =>
      obtain ⟨k₀, v₀⟩ := p
      by_cases h : k₀ = k
      · simp [dictSet, h, dictFind]
      · simp [dictSet, h, dictFind, ih]

theorem dictFind_dictSet_ne (m : ReqMap) (k k' : String) (v : List ℚ)
    (h : k ≠ k') : dictFind (dictSet m k v) k' = dictFind m k' := by
  induction m with
  | nil => simp [dictSet, dictFind, h]
  | cons p rest ih =>
      obtain ⟨k₀, v₀⟩ := p
      by_cases h₀ : k₀ = k
      · subst h₀
        simp [dictSet, dictFind, h]
      · simp [dictSet, h₀, dictFind, ih]

theorem dictGet_dictSet_self (m : ReqMap) (k : String) (v : List ℚ) :
    dictGet (dictSet m k v) k = v := by
  simp [dictGet, dictFind_dictSet_self]

theorem dictGet_dictSet_ne (m : ReqMap) (k k' : String) (v : List ℚ)
    (h : k ≠ k') : dictGet (dictSet m k v) k' = dictGet m k' := by
  simp [dictGet, dictFind_dictSet_ne m k k' v h]

theorem dictFind_dictDel_self (m : ReqMap) (k : String) :
    dictFind (dictDel m k) k = none := by
  induction m with
  | nil => rfl
  | cons p rest ih =>
      obtain ⟨k₀, v₀⟩ := p
      by_cases h : k₀ = k
      · simpa [dictDel, List.filter_cons, h] using ih
      · simpa [dictDel, List.filter_cons, h, dictFind] using ih

theorem dictFind_dictDel_ne (m : ReqMap) (k k' : String) (h : k ≠ k') :
    dictFind (dictDel m k) k' = dictFind m k' := by
  induction m with
  | nil => rfl
  | cons p rest ih =>
      obtain ⟨k₀, v₀⟩ := p
      simp only [dictDel] at ih ⊢
      rw [List.filter_cons]
      by_cases h₀ : k₀ = k
      · subst h₀
        rw [if_neg (by simp)]
        simpa [dictFind, h] using ih
      · rw [if_pos (by simp [h₀])]
        by_cases h₁ : k₀ = k'
        · simp [dictFind, h₁]
        · simp only [ne_eq, decide_not] at ih
          simp [dictFind, h₁, ih]

theorem dictGet_eq_nil_of_not_has (m : ReqMap) (k : String)
    (h : dictHas m k = false) : dictGet m k = [] := by
  unfold dictHas at h
  unfold dictGet
  cases hf : dictFind m k with
  | none => rfl
  | some v => rw [hf] at h; simp at h

/-! ### Eviction lemmas -/

theorem evict_suffix (c : ℚ) (l : List ℚ) : evict c l <:+ l := by
  induction l with
  | nil => exact List.suffix_refl _
  | cons t rest ih =>
      by_cases ht : t < c
      · rw [evict, if_pos ht]
        exact ih.trans (List.suffix_cons t rest)
      · rw [evict, if_neg ht]

theorem evict_length_le (c : ℚ) (l : List ℚ) :
    (evict c l).length ≤ l.length :=
  (evict_suffix c l).sublist.length_le

/-- On a non-decreasing list, the front-eviction loop removes exactly the
entries strictly below the cutoff: it is the filter keeping entries `≥ c`. -/
theorem evict_eq_filter (c : ℚ) (l : List ℚ) (h : l.Pairwise (· ≤ ·)) :
    evict c l = l.filter (fun t => decide (c ≤ t)) := by
  induction l with
  | nil => rfl
  | cons t rest ih =>
      rw [List.pairwise_cons] at h
      by_cases ht : t < c
      · rw [evict, if_pos ht, List.filter_cons,
          if_neg (by simpa using not_le.mpr ht), ih h.2]
      · have hct : c ≤ t := not_lt.mp ht
        rw [evict, if_neg ht, List.filter_cons, if_pos (by simpa using hct)]
        refine congrArg (t :: ·) ?_
        exact (List.filter_eq_self.mpr fun a ha =>
          decide_eq_true (le_trans hct (h.1 a ha))).symm

theorem evict_pairwise (c : ℚ) (l : List ℚ) (h : l.Pairwise (· ≤ ·)) :
    (evict c l).Pairwise (· ≤ ·) :=
  List.Pairwise.sublist (evict_suffix c l).sublist h

/-! ### Characterisation of the operations -/

/-- The post-eviction sequence `user_requests` computed inside both
`is_allowed` and `get_status` for a given key and call time. -/
def evicted (rl : RateLimiter) (k : String) (u : ℚ) : List ℚ :=
  evict (u - (rl.window_seconds : ℚ)) (dictGet rl.requests k)

theorem is_allowed_fst (rl : RateLimiter) (k : String) (u : ℚ) :
    (rl.is_allowed k u).1 =
      decide (((evicted rl k u).length : ℤ) < rl.max_requests) := by
  unfold RateLimiter.is_allowed evicted
  dsimp only
  split
  · next h => simp [not_lt.mpr h]
  · next h => simp [lt_of_not_ge h]

theorem is_allowed_state (rl : RateLimiter) (k : String) (u : ℚ) :
    (rl.is_allowed k u).2.2 =
      { rl with
        requests :=
          dictSet rl.requests k
            (if ((evicted rl k u).length : ℤ) ≥ rl.max_requests then
              evicted rl k u
            else
              evicted rl k u ++ [u]) } := by
  unfold RateLimiter.is_allowed evicted
  dsimp only
  split
  · next h => simp [h]
  · next h => simp [h]

theorem is_allowed_max_requests (rl : RateLimiter) (k : String) (u : ℚ) :
    (rl.is_allowed k u).2.2.max_requests = rl.max_requests := by
  rw [is_allowed_state]

theorem is_allowed_window_seconds (rl : RateLimiter) (k : String) (u : ℚ) :
    (rl.is_allowed k u).2.2.window_seconds = rl.window_seconds := by
  rw [is_allowed_state]

theorem is_allowed_info (rl : RateLimiter) (k : String) (u : ℚ) :
    (rl.is_allowed k u).2.1 =
      if ((evicted rl k u).length : ℤ) ≥ rl.max_requests then
        { allowed := false
          user_id := k
          current_requests := (evicted rl k u).length
          max_requests := rl.max_requests
          window_seconds := rl.window_seconds
          remaining_requests := none
          time_until_reset :=
            some ((rl.window_seconds : ℚ) -
              (u - (evicted rl k u).headD 0)) }
      else
        { allowed := true
          user_id := k
          current_requests := (evicted rl k u).length + 1
          max_requests := rl.max_requests
          window_seconds := rl.window_seconds
          remaining_requests :=
            some (rl.max_requests - (((evicted rl k u).length : ℤ) + 1))
          time_until_reset := none } := by
  unfold RateLimiter.is_allowed evicted
  dsimp only
  split
  · next h => simp [h]
  · next h => simp [h]

theorem get_status_state (rl : RateLimiter) (k : String) (u : ℚ) :
    (rl.get_status k u).2 =
      { rl with requests := dictSet rl.requests k (evicted rl k u) } := by
  rfl

theorem get_status_info (rl : RateLimiter) (k : String) (u : ℚ) :
    (rl.get_status k u).1 =
      { user_id := k
        current_requests := (evicted rl k u).length
        max_requests := rl.max_requests
        window_seconds := rl.window_seconds
        remaining_requests :=
          rl.max_requests - ((evicted rl k u).length : ℤ)
        time_until_reset :=
          match evicted rl k u with
          | [] => 0
          | oldest_request :: _ =>
              max 0 ((rl.window_seconds : ℚ) - (u - oldest_request))
        is_allowed :=
          decide (((evicted rl k u).length : ℤ) < rl.max_requests) } := by
  rfl

theorem get_status_max_requests (rl : RateLimiter) (k : String) (u : ℚ) :
    (rl.get_status k u).2.max_requests = rl.max_requests := by
  rw [get_status_state]

theorem get_status_window_seconds (rl : RateLimiter) (k : String) (u : ℚ) :
    (rl.get_status k u).2.window_seconds = rl.window_seconds := by
  rw [get_status_state]

/-! ### Call traces on a fixed key

`Op` is one client call on a fixed key: `check t` is `is_allowed(key, t)`,
`status t` is `get_status(key, t)`.  `runOps` replays a trace, recording the
boolean decision and timestamp of every `is_allowed` call. -/

inductive Op where
  | check (now : ℚ)
  | status (now : ℚ)
deriving Repr, DecidableEq

def opTime : Op → ℚ
  | .check t => t
  | .status t => t

def isCheck : Op → Bool
  | .check _ => true
  | .status _ => false

def runOps (rl : RateLimiter) (k : String) : List Op → List (Bool × ℚ)
  | [] => []
  | Op.check t :: ops =>
      ((rl.is_allowed k t).1, t) :: runOps (rl.is_allowed k t).2.2 k ops
  | Op.status t :: ops => runOps (rl.get_status k t).2 k ops

/-- Functional replay of the decision logic of `is_allowed` for one key:
`acc` is the list of all timestamps admitted so far (never evicted), and a
new call at `u` is admitted exactly when fewer than `N` admitted timestamps
lie in the trailing window `[u - W, u]`. -/
def simRun (N : ℤ) (W : ℚ) : List ℚ → List ℚ → List (Bool × ℚ)
  | _, [] => []
  | acc, u :: ts =>
      if ((acc.filter (fun s => decide (u - W ≤ s))).length : ℤ) < N then
        (true, u) :: simRun N W (acc ++ [u]) ts
      else
        (false, u) :: simRun N W acc ts

/-- Admitted-timestamp accumulator of `simRun`. -/
def simAcc (N : ℤ) (W : ℚ) : List ℚ → List ℚ → List ℚ
  | acc, [] => acc
  | acc, u :: ts =>
      if ((acc.filter (fun s => decide (u - W ≤ s))).length : ℤ) < N then
        simAcc N W (acc ++ [u]) ts
      else
        simAcc N W acc ts

/-- Timestamps of the `allowed=true` results in a recorded trace. -/
def allowedTimes (l : List (Bool × ℚ)) : List ℚ :=
  (l.filter (fun p => p.1)).map (fun p => p.2)

/-- Coupling between a limiter state and the replay state for key `k`:
the stored deque is exactly the admitted timestamps still inside the window
of the last call time `t`, the admitted timestamps are non-decreasing, and
all of them are at most `t`. -/
def Coupled (rl : RateLimiter) (k : String) (acc : List ℚ) (t : ℚ) : Prop :=
  dictGet rl.requests k =
      acc.filter (fun s => decide (t - (rl.window_seconds : ℚ) ≤ s)) ∧
  acc.Pairwise (· ≤ ·) ∧ ∀ s ∈ acc, s ≤ t

theorem evicted_coupled (rl : RateLimiter) (k : String) (acc : List ℚ)
    (t u : ℚ) (hc : Coupled rl k acc t) (htu : t ≤ u) :
    evicted rl k u =
      acc.filter (fun s => decide (u - (rl.window_seconds : ℚ) ≤ s)) := by
  obtain ⟨hget, hsort, -⟩ := hc
  unfold evicted
  rw [hget, evict_eq_filter _ _ (List.Pairwise.filter _ hsort),
    List.filter_filter]
  refine List.filter_congr fun s _ => ?_
  by_cases h2 : u - (rl.window_seconds : ℚ) ≤ s
  · have h1 : t - (rl.window_seconds : ℚ) ≤ s := by linarith
    simp [h1, h2]
  · simp [h2]

theorem coupled_check (rl : RateLimiter) (k : String) (acc : List ℚ)
    (t u : ℚ) (hW : 0 ≤ rl.window_seconds) (hc : Coupled rl k acc t)
    (htu : t ≤ u) :
    (rl.is_allowed k u).1 =
        decide
          (((acc.filter
              (fun s => decide (u - (rl.window_seconds : ℚ) ≤ s))).length :
            ℤ) < rl.max_requests) ∧
    Coupled (rl.is_allowed k u).2.2 k
      (if ((acc.filter
            (fun s => decide (u - (rl.window_seconds : ℚ) ≤ s))).length :
          ℤ) < rl.max_requests then
        acc ++ [u]
      else acc) u := by
  have hev := evicted_coupled rl k acc t u hc htu
  obtain ⟨hget, hsort, hle⟩ := hc
  refine ⟨by rw [is_allowed_fst, hev], ?_⟩
  have hstate := is_allowed_state rl k u
  by_cases hcond :
      ((acc.filter
          (fun s => decide (u - (rl.window_seconds : ℚ) ≤ s))).length : ℤ) <
        rl.max_requests
  · rw [if_pos hcond]
    refine ⟨?_, ?_, ?_⟩
    · have hlt : ((evicted rl k u).length : ℤ) < rl.max_requests := by
        rw [hev]; exact hcond
      have hWq : (0 : ℚ) ≤ (rl.window_seconds : ℚ) := by exact_mod_cast hW
      rw [hstate]
      dsimp only
      rw [dictGet_dictSet_self, if_neg (not_le.mpr hlt), hev,
        List.filter_append]
      simp [List.filter_cons, hW,
        show u - (rl.window_seconds : ℚ) ≤ u by linarith]
    · exact List.pairwise_append.mpr
        ⟨hsort, List.pairwise_singleton _ _,
          fun a ha b hb => by
            rw [List.mem_singleton] at hb
            exact hb ▸ le_trans (hle a ha) htu⟩
    · intro s hs
      rcases List.mem_append.mp hs with h | h
      · exact le_trans (hle s h) htu
      · rw [List.mem_singleton] at h
        exact h.le
  · rw [if_neg hcond]
    refine ⟨?_, hsort, fun s hs => le_trans (hle s hs) htu⟩
    have hge : rl.max_requests ≤ ((evicted rl k u).length : ℤ) := by
      rw [hev]; exact not_lt.mp hcond
    rw [hstate]
    dsimp only
    rw [dictGet_dictSet_self, if_pos hge, hev]

theorem coupled_status (rl : RateLimiter) (k : String) (acc : List ℚ)
    (t u : ℚ) (hc : Coupled rl k acc t) (htu : t ≤ u) :
    Coupled (rl.get_status k u).2 k acc u := by
  have hev := evicted_coupled rl k acc t u hc htu
  obtain ⟨hget, hsort, hle⟩ := hc
  refine ⟨?_, hsort, fun s hs => le_trans (hle s hs) htu⟩
  rw [get_status_state]
  dsimp only
  rw [dictGet_dictSet_self, hev]

/-- Refinement: a mixed `is_allowed`/`get_status` trace on one key, replayed
from a coupled state at non-decreasing call times, records exactly the
decisions of the functional replay `simRun` on the `is_allowed` call times. -/
theorem runOps_eq_simRun (k : String) :
    ∀ (ops : List Op) (rl : RateLimiter) (acc : List ℚ) (t : ℚ),
      0 ≤ rl.window_seconds →
      Coupled rl k acc t →
      List.Chain' (· ≤ ·) (t :: ops.map opTime) →
      runOps rl k ops =
        simRun rl.max_requests (rl.window_seconds : ℚ) acc
          ((ops.filter isCheck).map opTime) := by
  intro ops
  induction ops with
  | nil => intro rl acc t hW hc hch; rfl
  | cons o ops ih =>
      intro rl acc t hW hc hch
      rw [List.map_cons, List.chain'_cons] at hch
      obtain ⟨hto, hch'⟩ := hch
      cases o with
      | check u =>
          obtain ⟨hfst, hc'⟩ := coupled_check rl k acc t u hW hc hto
          have hW' : 0 ≤ (rl.is_allowed k u).2.2.window_seconds := by
            rw [is_allowed_window_seconds]; exact hW
          have ihx :=
            ih (rl.is_allowed k u).2.2
              (if ((acc.filter
                    (fun s =>
                      decide (u - (rl.window_seconds : ℚ) ≤ s))).length : ℤ) <
                  rl.max_requests then
                acc ++ [u]
              else acc)
              u hW' hc' hch'
          rw [is_allowed_max_requests, is_allowed_window_seconds] at ihx
          have hfilter :
              (Op.check u :: ops).filter isCheck =
                Op.check u :: ops.filter isCheck := by
            simp [List.filter_cons, isCheck]
          rw [hfilter, List.map_cons]
          show _ = simRun _ _ _ (u :: _)
          rw [runOps, simRun]
          by_cases hcond :
              ((acc.filter
                  (fun s =>
                    decide (u - (rl.window_seconds : ℚ) ≤ s))).length : ℤ) <
                rl.max_requests
          · rw [if_pos hcond]
            rw [if_pos hcond] at hc' ihx
            refine congrArg₂ _ ?_ ihx
            rw [hfst, decide_eq_true hcond]
          · rw [if_neg hcond]
            rw [if_neg hcond] at hc' ihx
            refine congrArg₂ _ ?_ ihx
            rw [hfst, decide_eq_false hcond]
      | status u =>
          have hc' := coupled_status rl k acc t u hc hto
          have hW' : 0 ≤ (rl.get_status k u).2.window_seconds := by
            rw [get_status_window_seconds]; exact hW
          have ihx := ih (rl.get_status k u).2 acc u hW' hc' hch'
          rw [get_status_max_requests, get_status_window_seconds] at ihx
          have hfilter :
              (Op.status u :: ops).filter isCheck = ops.filter isCheck := by
            simp [List.filter_cons, isCheck]
          rw [hfilter, runOps]
          exact ihx

/-! ### The sliding-window counting bound on the functional replay -/

theorem length_filter_mono {α : Type} (p q : α → Bool) (l : List α)
    (h : ∀ x ∈ l, p x = true → q x = true) :
    (l.filter p).length ≤ (l.filter q).length := by
  rw [← List.countP_eq_length_filter, ← List.countP_eq_length_filter]
  exact List.countP_mono_left h

theorem allowedTimes_cons_true (u : ℚ) (l : List (Bool × ℚ)) :
    allowedTimes ((true, u) :: l) = u :: allowedTimes l := by
  simp [allowedTimes, List.filter_cons]

theorem allowedTimes_cons_false (u : ℚ) (l : List (Bool × ℚ)) :
    allowedTimes ((false, u) :: l) = allowedTimes l := by
  simp [allowedTimes, List.filter_cons]

theorem simAcc_eq (N : ℤ) (W : ℚ) :
    ∀ (ts acc : List ℚ),
      simAcc N W acc ts = acc ++ allowedTimes (simRun N W acc ts) := by
  intro ts
  induction ts with
  | nil => intro acc; simp [simAcc, simRun, allowedTimes]
  | cons u ts ih =>
      intro acc
      rw [simAcc, simRun]
      by_cases hcond :
          ((acc.filter (fun s => decide (u - W ≤ s))).length : ℤ) < N
      · rw [if_pos hcond, if_pos hcond, allowedTimes_cons_true, ih]
        simp
      · rw [if_neg hcond, if_neg hcond, allowedTimes_cons_false, ih]

/-- The key windowed-count invariant: at most `N` of the admitted
timestamps lie in any closed interval `[a, a + W]`. -/
def WindowBound (N : ℤ) (W : ℚ) (l : List ℚ) : Prop :=
  ∀ a : ℚ, ((l.filter (fun s => decide (a ≤ s ∧ s ≤ a + W))).length : ℤ) ≤ N

theorem simAcc_windowBound (N : ℤ) (W : ℚ) :
    ∀ (ts acc : List ℚ), WindowBound N W acc →
      WindowBound N W (simAcc N W acc ts) := by
  intro ts
  induction ts with
  | nil => intro acc h; exact h
  | cons u ts ih =>
      intro acc h
      rw [simAcc]
      by_cases hcond :
          ((acc.filter (fun s => decide (u - W ≤ s))).length : ℤ) < N
      · rw [if_pos hcond]
        refine ih (acc ++ [u]) ?_
        intro a
        rw [List.filter_append]
        by_cases hu : a ≤ u ∧ u ≤ a + W
        · have hmono :
              ((acc.filter
                  (fun s => decide (a ≤ s ∧ s ≤ a + W))).length : ℤ) ≤
                ((acc.filter (fun s => decide (u - W ≤ s))).length : ℤ) := by
            exact_mod_cast Int.ofNat_le.mpr <| by
              exact length_filter_mono _ _ acc fun x _ hx => by
                rw [decide_eq_true_eq] at hx
                exact decide_eq_true (by linarith [hu.1, hu.2, hx.1, hx.2])
          rw [List.length_append]
          have hone :
              ((([u] : List ℚ).filter
                  (fun s => decide (a ≤ s ∧ s ≤ a + W))).length : ℤ) ≤ 1 := by
            simp [List.filter_cons, hu]
          push_cast
          push_cast at hmono hone
          linarith
        · have hzero :
              ([u] : List ℚ).filter
                  (fun s => decide (a ≤ s ∧ s ≤ a + W)) = [] := by
            simp [List.filter_cons, hu]
          rw [hzero, List.append_nil]
          exact h a
      · rw [if_neg hcond]
        exact ih acc h

theorem length_filter_allowedTimes (q : ℚ → Bool) :
    ∀ l : List (Bool × ℚ),
      (l.filter (fun p => p.1 && q p.2)).length =
        ((allowedTimes l).filter q).length := by
  intro l
  induction l with
  | nil => rfl
  | cons p l ih =>
      obtain ⟨b, s⟩ := p
      cases b
      · rw [allowedTimes_cons_false, List.filter_cons]
        simpa using ih
      · rw [allowedTimes_cons_true, List.filter_cons, List.filter_cons]
        by_cases hq : q s = true
        · simp [hq, ih]
        · simp [hq, ih]

theorem checkTimes_map_check (ts : List ℚ) :
    ((ts.map Op.check).filter isCheck).map opTime = ts := by
  induction ts with
  | nil => rfl
  | cons t ts ih => simp [List.filter_cons, isCheck, opTime, ih]

theorem init_ok (N Wz : ℤ) (rl : RateLimiter)
    (h : RateLimiter.init N Wz = Except.ok rl) :
    0 < N ∧ 0 < Wz ∧ rl = ⟨N, Wz, []⟩ := by
  unfold RateLimiter.init at h
  split at h
  · exact absurd h (by simp)
  · split at h
    · exact absurd h (by simp)
    · next h1 h2 =>
        simp only [Except.ok.injEq] at h
        exact ⟨not_le.mp h1, not_le.mp h2, h.symm⟩

/-- Refinement of a fresh limiter's `is_allowed`-only trace by `simRun`. -/
theorem runOps_fresh_eq_simRun (N Wz : ℤ) (hWz : 0 ≤ Wz) (k : String)
    (ts : List ℚ) (hts : List.Chain' (· ≤ ·) ts) :
    runOps ⟨N, Wz, []⟩ k (ts.map Op.check) = simRun N (Wz : ℚ) [] ts := by
  cases ts with
  | nil => rfl
  | cons t ts' =>
      have hc₀ : Coupled ⟨N, Wz, []⟩ k [] t :=
        ⟨by simp [dictGet, dictFind], List.Pairwise.nil, by simp⟩
      have hmap :
          List.map opTime (List.map Op.check (t :: ts')) = t :: ts' := by
        rw [List.map_map]
        exact List.map_id'' (fun x => rfl) _
      have hch :
          List.Chain' (· ≤ ·)
            (t :: (List.map Op.check (t :: ts')).map opTime) := by
        rw [hmap]
        exact List.chain'_cons.mpr ⟨le_refl t, hts⟩
      have h :=
        runOps_eq_simRun k ((t :: ts').map Op.check) ⟨N, Wz, []⟩ [] t hWz
          hc₀ hch
      rw [checkTimes_map_check] at h
      exact h

/-- C1: for every limiter constructed with `max_requests N > 0` and
`window_seconds W > 0`, every fixed key, and every sequence of `is_allowed`
calls for that key at explicit, monotonically non-decreasing timestamps,
the number of calls returning `allowed=true` whose timestamps fall in any
half-open time interval of length `W` — in either orientation
`[a, a + W)` or `(a, a + W]` — is at most `N`. -/
theorem c1_sliding_window_quota (N Wz : ℤ) (rl : RateLimiter)
    (hinit : RateLimiter.init N Wz = Except.ok rl)
    (k : String) (ts : List ℚ) (hts : List.Chain' (· ≤ ·) ts) (a : ℚ) :
    (((runOps rl k (ts.map Op.check)).filter
        (fun p => p.1 && decide (a ≤ p.2 ∧ p.2 < a + (Wz : ℚ)))).length :
      ℤ) ≤ N ∧
    (((runOps rl k (ts.map Op.check)).filter
        (fun p => p.1 && decide (a < p.2 ∧ p.2 ≤ a + (Wz : ℚ)))).length :
      ℤ) ≤ N := by
  obtain ⟨hN, hWz, hrl⟩ := init_ok N Wz rl hinit
  subst hrl
  have hrun := runOps_fresh_eq_simRun N Wz hWz.le k ts hts
  have hat : allowedTimes (simRun N (Wz : ℚ) [] ts) = simAcc N (Wz : ℚ) [] ts := by
    have h := simAcc_eq N (Wz : ℚ) ts []
    simpa using h.symm
  have hwb : WindowBound N (Wz : ℚ) (simAcc N (Wz : ℚ) [] ts) := by
    refine simAcc_windowBound N (Wz : ℚ) ts [] ?_
    intro a'
    simpa using hN.le
  have hbound :
      ∀ q : ℚ → Bool,
        (∀ s, q s = true → decide (a ≤ s ∧ s ≤ a + (Wz : ℚ)) = true) →
        (((runOps ⟨N, Wz, []⟩ k (ts.map Op.check)).filter
            (fun p => p.1 && q p.2)).length : ℤ) ≤ N := by
    intro q hq
    rw [hrun, length_filter_allowedTimes q (simRun N (Wz : ℚ) [] ts), hat]
    calc
      ((((simAcc N (Wz : ℚ) [] ts).filter q).length : ℤ)) ≤
          (((simAcc N (Wz : ℚ) [] ts).filter
              (fun s => decide (a ≤ s ∧ s ≤ a + (Wz : ℚ)))).length : ℤ) := by
        exact_mod_cast
          length_filter_mono _ _ _ fun x _ hx => hq x hx
      _ ≤ N := hwb a
  constructor
  · refine hbound (fun s => decide (a ≤ s ∧ s < a + (Wz : ℚ)))
      fun s hs => ?_
    rw [decide_eq_true_eq] at hs
    exact decide_eq_true ⟨hs.1, hs.2.le⟩
  · refine hbound (fun s => decide (a < s ∧ s ≤ a + (Wz : ℚ)))
      fun s hs => ?_
    rw [decide_eq_true_eq] at hs
    exact decide_eq_true ⟨hs.1.le, hs.2⟩

/-- Witness for C1: limiter `(2, 60)`, three `is_allowed` calls at time `0`
on key `"u"`, both half-open windows anchored at `a = 0`. -/
theorem c1_sliding_window_quota_witness :
    (((runOps ⟨2, 60, []⟩ "u" (([0, 0, 0] : List ℚ).map Op.check)).filter
        (fun p => p.1 &&
          decide ((0 : ℚ) ≤ p.2 ∧ p.2 < (0 : ℚ) + ((60 : ℤ) : ℚ)))).length :
      ℤ) ≤ 2 ∧
    (((runOps ⟨2, 60, []⟩ "u" (([0, 0, 0] : List ℚ).map Op.check)).filter
        (fun p => p.1 &&
          decide ((0 : ℚ) < p.2 ∧ p.2 ≤ (0 : ℚ) + ((60 : ℤ) : ℚ)))).length :
      ℤ) ≤ 2 :=
  c1_sliding_window_quota 2 60 ⟨2, 60, []⟩ rfl "u" [0, 0, 0]
    (by simp [List.chain'_cons, List.chain'_singleton]) 0

/-- C2: for every key and timestamp `now`, with `count` the number of
entries remaining after eviction: if `count >= max_requests` the call
returns `allowed=false` with `current_requests = count`, does not append
`now`, and reports
`time_until_reset = window_seconds - (now - oldest remaining timestamp)`;
otherwise it appends `now` to the tail of the key's sequence and returns
`allowed=true` with `current_requests = count + 1` and
`remaining_requests = max_requests - (count + 1)`. -/
theorem c2_is_allowed_branching (rl : RateLimiter) (k : String) (now : ℚ) :
    (((evicted rl k now).length : ℤ) ≥ rl.max_requests →
      (rl.is_allowed k now).1 = false ∧
      (rl.is_allowed k now).2.1.allowed = false ∧
      (rl.is_allowed k now).2.1.current_requests =
        (evicted rl k now).length ∧
      (rl.is_allowed k now).2.1.time_until_reset =
        some ((rl.window_seconds : ℚ) -
          (now - (evicted rl k now).headD 0)) ∧
      dictGet (rl.is_allowed k now).2.2.requests k = evicted rl k now) ∧
    (((evicted rl k now).length : ℤ) < rl.max_requests →
      (rl.is_allowed k now).1 = true ∧
      (rl.is_allowed k now).2.1.allowed = true ∧
      (rl.is_allowed k now).2.1.current_requests =
        (evicted rl k now).length + 1 ∧
      (rl.is_allowed k now).2.1.remaining_requests =
        some (rl.max_requests - (((evicted rl k now).length : ℤ) + 1)) ∧
      dictGet (rl.is_allowed k now).2.2.requests k =
        evicted rl k now ++ [now]) := by
  constructor
  · intro hge
    rw [is_allowed_fst, is_allowed_info, is_allowed_state, if_pos hge]
    refine ⟨decide_eq_false (not_lt.mpr hge), rfl, rfl, rfl, ?_⟩
    dsimp only
    rw [dictGet_dictSet_self, if_pos hge]
  · intro hlt
    rw [is_allowed_fst, is_allowed_info, is_allowed_state,
      if_neg (not_le.mpr hlt)]
    refine ⟨decide_eq_true hlt, rfl, rfl, rfl, ?_⟩
    dsimp only
    rw [dictGet_dictSet_self, if_neg (not_le.mpr hlt)]

/-- Witness for C2 (rejection branch): limiter `(1, 10)` with one stored
timestamp `0` for `"u"`, call at `now = 5`. -/
theorem c2_is_allowed_branching_witness :
    ((evicted ⟨1, 10, [("u", [0])]⟩ "u" 5).length : ℤ) ≥
        (RateLimiter.mk 1 10 [("u", [0])]).max_requests ∧
    ((RateLimiter.mk 1 10 [("u", [0])]).is_allowed "u" 5).1 = false :=
  ⟨by norm_num [evicted, evict, dictGet, dictFind],
    ((c2_is_allowed_branching ⟨1, 10, [("u", [0])]⟩ "u" 5).1
      (by norm_num [evicted, evict, dictGet, dictFind])).1⟩

/-- C3: on every `is_allowed` or `get_status` call, assuming the key's
stored sequence is non-decreasing, eviction removes exactly those entries
strictly less than `cutoff = now - window_seconds`: every entry strictly
below the cutoff is removed and every entry at or above the cutoff
(including one exactly `window_seconds` old) is retained. -/
theorem c3_eviction_exact (rl : RateLimiter) (k : String) (now : ℚ)
    (hsort : (dictGet rl.requests k).Pairwise (· ≤ ·)) :
    evicted rl k now =
      (dictGet rl.requests k).filter
        (fun t => decide (now - (rl.window_seconds : ℚ) ≤ t)) ∧
    dictGet ((rl.get_status k now).2).requests k =
      (dictGet rl.requests k).filter
        (fun t => decide (now - (rl.window_seconds : ℚ) ≤ t)) ∧
    (∀ t ∈ dictGet rl.requests k,
        t < now - (rl.window_seconds : ℚ) → t ∉ evicted rl k now) ∧
    (∀ t ∈ dictGet rl.requests k,
        now - (rl.window_seconds : ℚ) ≤ t → t ∈ evicted rl k now) := by
  have hev : evicted rl k now =
      (dictGet rl.requests k).filter
        (fun t => decide (now - (rl.window_seconds : ℚ) ≤ t)) :=
    evict_eq_filter _ _ hsort
  refine ⟨hev, ?_, ?_, ?_⟩
  · rw [get_status_state]
    dsimp only
    rw [dictGet_dictSet_self, hev]
  · intro t ht hlt
    rw [hev, List.mem_filter]
    rintro ⟨-, hdec⟩
    rw [decide_eq_true_eq] at hdec
    exact absurd hdec (not_le.mpr hlt)
  · intro t ht hge
    rw [hev, List.mem_filter]
    exact ⟨ht, decide_eq_true hge⟩

/-- Witness for C3: stored sequence `[0, 4]` for `"u"`, call at
`now = 12` with window `10` (cutoff `2`): `0` is evicted, `4` is kept. -/
theorem c3_eviction_exact_witness :
    (dictGet (RateLimiter.mk 2 10 [("u", [0, 4])]).requests
        "u").Pairwise (· ≤ ·) ∧
    evicted ⟨2, 10, [("u", [0, 4])]⟩ "u" 12 =
      (dictGet (RateLimiter.mk 2 10 [("u", [0, 4])]).requests "u").filter
        (fun t =>
          decide (12 - (((RateLimiter.mk 2 10 [("u", [0, 4])]
            ).window_seconds : ℤ) : ℚ) ≤ t)) :=
  ⟨by norm_num [dictGet, dictFind, List.pairwise_cons],
    (c3_eviction_exact ⟨2, 10, [("u", [0, 4])]⟩ "u" 12
      (by norm_num [dictGet, dictFind, List.pairwise_cons])).1⟩

/-- C6: `get_status` returns `is_allowed = (count < max_requests)` with
`count` the number of entries remaining after eviction,
`remaining_requests = max_requests - count`, and `time_until_reset` equal
to `0` when no entries remain and otherwise
`max(0, window_seconds - (now - oldest remaining timestamp))`; the
reported `time_until_reset` is never negative. -/
theorem c6_get_status_fields (rl : RateLimiter) (k : String) (now : ℚ) :
    (rl.get_status k now).1.is_allowed =
        decide (((evicted rl k now).length : ℤ) < rl.max_requests) ∧
    (rl.get_status k now).1.current_requests = (evicted rl k now).length ∧
    (rl.get_status k now).1.remaining_requests =
        rl.max_requests - ((evicted rl k now).length : ℤ) ∧
    (evicted rl k now = [] →
      (rl.get_status k now).1.time_until_reset = 0) ∧
    (∀ o rest, evicted rl k now = o :: rest →
      (rl.get_status k now).1.time_until_reset =
        max 0 ((rl.window_seconds : ℚ) - (now - o))) ∧
    0 ≤ (rl.get_status k now).1.time_until_reset := by
  rw [get_status_info]
  refine ⟨rfl, rfl, rfl, ?_, ?_, ?_⟩
  · intro h
    dsimp only
    rw [h]
  · intro o rest h
    dsimp only
    rw [h]
  · dsimp only
    cases hev : evicted rl k now with
    | nil => exact le_refl 0
    | cons o rest => exact le_max_left 0 _

/-- Witness for C6: stored sequence `[3]` for `"u"`, status call at
`now = 5` with window `10`: the oldest remaining timestamp is `3`. -/
theorem c6_get_status_fields_witness :
    evicted ⟨2, 10, [("u", [3])]⟩ "u" 5 = (3 : ℚ) :: [] ∧
    ((RateLimiter.mk 2 10 [("u", [3])]).get_status "u" 5).1.time_until_reset =
      max 0 ((((RateLimiter.mk 2 10 [("u", [3])]).window_seconds : ℤ) : ℚ) -
        (5 - 3)) :=
  ⟨by norm_num [evicted, evict, dictGet, dictFind],
    (c6_get_status_fields ⟨2, 10, [("u", [3])]⟩ "u" 5).2.2.2.2.1 3 []
      (by norm_num [evicted, evict, dictGet, dictFind])⟩

/-! ### Arbitrary call traces (any keys, any operations) -/

/-- One public operation on the limiter, with an arbitrary key. -/
inductive Call where
  | isAllowed (k : String) (now : ℚ)
  | getStatus (k : String) (now : ℚ)
  | resetUser (k : String)
  | resetAll
deriving Repr, DecidableEq

/-- State transition of one call (outputs discarded). -/
def applyCall (rl : RateLimiter) : Call → RateLimiter
  | .isAllowed k now => (rl.is_allowed k now).2.2
  | .getStatus k now => (rl.get_status k now).2
  | .resetUser k => rl.reset_user k
  | .resetAll => rl.reset_all

/-- Replay a sequence of calls from a state. -/
def runCalls (rl : RateLimiter) (calls : List Call) : RateLimiter :=
  calls.foldl applyCall rl

theorem applyCall_config (rl : RateLimiter) (c : Call) :
    (applyCall rl c).max_requests = rl.max_requests ∧
    (applyCall rl c).window_seconds = rl.window_seconds := by
  cases c with
  | isAllowed k now =>
      exact ⟨is_allowed_max_requests rl k now,
        is_allowed_window_seconds rl k now⟩
  | getStatus k now =>
      exact ⟨get_status_max_requests rl k now,
        get_status_window_seconds rl k now⟩
  | resetUser k =>
      show (rl.reset_user k).max_requests = _ ∧
        (rl.reset_user k).window_seconds = _
      unfold RateLimiter.reset_user
      split <;> exact ⟨rfl, rfl⟩
  | resetAll => exact ⟨rfl, rfl⟩

theorem runCalls_config (calls : List Call) :
    ∀ rl : RateLimiter,
      (runCalls rl calls).max_requests = rl.max_requests ∧
      (runCalls rl calls).window_seconds = rl.window_seconds := by
  induction calls with
  | nil => exact fun rl => ⟨rfl, rfl⟩
  | cons c calls ih =>
      intro rl
      have h1 := applyCall_config rl c
      have h2 := ih (applyCall rl c)
      exact ⟨h2.1.trans h1.1, h2.2.trans h1.2⟩

/-- C4: construction fails with a `ValueError` if and only if
`max_requests <= 0` or `window_seconds <= 0`; on error no instance is
produced, and on success both configuration values are stored unchanged
(with an empty request map) and are never modified by any subsequent
operation. -/
theorem c4_construction (m w : ℤ) :
    ((∃ e, RateLimiter.init m w = Except.error e) ↔ m ≤ 0 ∨ w ≤ 0) ∧
    (∀ rl : RateLimiter, RateLimiter.init m w = Except.ok rl →
      rl.max_requests = m ∧ rl.window_seconds = w ∧ rl.requests = []) ∧
    (∀ (rl : RateLimiter) (calls : List Call),
      (runCalls rl calls).max_requests = rl.max_requests ∧
      (runCalls rl calls).window_seconds = rl.window_seconds) := by
  refine ⟨⟨?_, ?_⟩, ?_, fun rl calls => runCalls_config calls rl⟩
  · rintro ⟨e, he⟩
    unfold RateLimiter.init at he
    by_cases h1 : m ≤ 0
    · exact Or.inl h1
    · right
      rw [if_neg h1] at he
      by_cases h2 : w ≤ 0
      · exact h2
      · rw [if_neg h2] at he
        exact absurd he (by simp)
  · intro h
    unfold RateLimiter.init
    rcases h with h | h
    · exact ⟨_, by rw [if_pos h]⟩
    · by_cases h1 : m ≤ 0
      · exact ⟨_, by rw [if_pos h1]⟩
      · exact ⟨_, by rw [if_neg h1, if_pos h]⟩
  · intro rl h
    obtain ⟨-, -, hrl⟩ := init_ok m w rl h
    rw [hrl]
    exact ⟨rfl, rfl, rfl⟩

/-- Witness for C4 at `m = 5`, `w = 60` (valid configuration) together
with the error case `m = 0`. -/
theorem c4_construction_witness :
    (((∃ e, RateLimiter.init 5 60 = Except.error e) ↔
        (5 : ℤ) ≤ 0 ∨ (60 : ℤ) ≤ 0) ∧
      (∀ rl : RateLimiter, RateLimiter.init 5 60 = Except.ok rl →
        rl.max_requests = 5 ∧ rl.window_seconds = 60 ∧ rl.requests = []) ∧
      (∀ (rl : RateLimiter) (calls : List Call),
        (runCalls rl calls).max_requests = rl.max_requests ∧
        (runCalls rl calls).window_seconds = rl.window_seconds)) ∧
    (∃ e, RateLimiter.init 0 60 = Except.error e) :=
  ⟨c4_construction 5 60, (c4_construction 0 60).1.mpr (Or.inl le_rfl)⟩

/-! ### Bounded per-key state (C9) -/

/-- Every key's stored sequence has at most `max_requests` entries. -/
def BoundedInv (rl : RateLimiter) : Prop :=
  ∀ k : String, ((dictGet rl.requests k).length : ℤ) ≤ rl.max_requests

theorem applyCall_bounded (rl : RateLimiter) (c : Call)
    (hmax : 0 ≤ rl.max_requests) (h : BoundedInv rl) :
    BoundedInv (applyCall rl c) := by
  cases c with
  | isAllowed k now =>
      intro k'
      show ((dictGet (rl.is_allowed k now).2.2.requests k').length : ℤ) ≤
        (rl.is_allowed k now).2.2.max_requests
      rw [is_allowed_max_requests, is_allowed_state]
      dsimp only
      by_cases hk : k = k'
      · subst hk
        rw [dictGet_dictSet_self]
        by_cases hge : ((evicted rl k now).length : ℤ) ≥ rl.max_requests
        · rw [if_pos hge]
          calc ((evicted rl k now).length : ℤ) ≤
                ((dictGet rl.requests k).length : ℤ) := by
                exact_mod_cast evict_length_le _ _
            _ ≤ rl.max_requests := h k
        · rw [if_neg hge]
          rw [List.length_append, List.length_singleton]
          have hlt := not_le.mp hge
          push_cast
          push_cast at hlt
          linarith
      · rw [dictGet_dictSet_ne _ _ _ _ hk]
        exact h k'
  | getStatus k now =>
      intro k'
      show ((dictGet (rl.get_status k now).2.requests k').length : ℤ) ≤
        (rl.get_status k now).2.max_requests
      rw [get_status_max_requests, get_status_state]
      dsimp only
      by_cases hk : k = k'
      · subst hk
        rw [dictGet_dictSet_self]
        calc ((evicted rl k now).length : ℤ) ≤
              ((dictGet rl.requests k).length : ℤ) := by
              exact_mod_cast evict_length_le _ _
          _ ≤ rl.max_requests := h k
      · rw [dictGet_dictSet_ne _ _ _ _ hk]
        exact h k'
  | resetUser k =>
      intro k'
      show ((dictGet (rl.reset_user k).requests k').length : ℤ) ≤
        (rl.reset_user k).max_requests
      unfold RateLimiter.reset_user
      split
      · dsimp only
        by_cases hk : k = k'
        · subst hk
          unfold dictGet
          rw [dictFind_dictDel_self]
          simpa using hmax
        · unfold dictGet
          rw [dictFind_dictDel_ne _ _ _ hk]
          exact h k'
      · exact h k'
  | resetAll =>
      intro k'
      show ((dictGet rl.reset_all.requests k').length : ℤ) ≤
        rl.reset_all.max_requests
      simpa [RateLimiter.reset_all, dictGet, dictFind] using hmax

theorem runCalls_bounded (calls : List Call) :
    ∀ rl : RateLimiter, 0 ≤ rl.max_requests → BoundedInv rl →
      BoundedInv (runCalls rl calls) := by
  induction calls with
  | nil => exact fun rl _ h => h
  | cons c calls ih =>
      intro rl hmax h
      refine ih (applyCall rl c) ?_ (applyCall_bounded rl c hmax h)
      rw [(applyCall_config rl c).1]
      exact hmax

/-- C9: starting from any constructed limiter and applying any sequence of
`is_allowed`, `get_status`, `reset_user`, `reset_all` calls, each key's
stored timestamp sequence has at most `max_requests` entries; consequently
every rejected `is_allowed` call reports `current_requests` exactly equal
to `max_requests`. -/
theorem c9_bounded_state (N Wz : ℤ) (rl : RateLimiter)
    (hinit : RateLimiter.init N Wz = Except.ok rl) (calls : List Call) :
    (∀ k : String,
      ((dictGet (runCalls rl calls).requests k).length : ℤ) ≤ N) ∧
    (∀ (k : String) (now : ℚ),
      ((runCalls rl calls).is_allowed k now).1 = false →
      (((runCalls rl calls).is_allowed k now).2.1.current_requests : ℤ) =
        N) := by
  obtain ⟨hN, hWz, hrl⟩ := init_ok N Wz rl hinit
  have hmaxeq : (runCalls rl calls).max_requests = N := by
    rw [(runCalls_config calls rl).1, hrl]
  have hb : BoundedInv (runCalls rl calls) := by
    refine runCalls_bounded calls rl ?_ ?_
    · rw [hrl]; exact hN.le
    · intro k
      rw [hrl]
      simpa [dictGet, dictFind] using hN.le
  constructor
  · intro k
    have hk := hb k
    rwa [hmaxeq] at hk
  · intro k now hfalse
    rw [is_allowed_fst] at hfalse
    have hge : (runCalls rl calls).max_requests ≤
        ((evicted (runCalls rl calls) k now).length : ℤ) :=
      not_lt.mp (of_decide_eq_false hfalse)
    have hle : ((evicted (runCalls rl calls) k now).length : ℤ) ≤
        (runCalls rl calls).max_requests := by
      calc ((evicted (runCalls rl calls) k now).length : ℤ) ≤
            ((dictGet (runCalls rl calls).requests k).length : ℤ) := by
            exact_mod_cast evict_length_le _ _
        _ ≤ (runCalls rl calls).max_requests := hb k
    rw [is_allowed_info, if_pos hge]
    dsimp only
    rw [le_antisymm hle hge, hmaxeq]

/-- Witness for C9: limiter `(1, 60)`, one admitted call for `"u"` at
time 0, then a rejected call for `"u"` at time 0 reports
`current_requests = 1`. -/
theorem c9_bounded_state_witness :
    (∀ k : String,
      ((dictGet (runCalls ⟨1, 60, []⟩
          [Call.isAllowed "u" 0]).requests k).length : ℤ) ≤ 1) ∧
    (((runCalls (⟨1, 60, []⟩ : RateLimiter)
        [Call.isAllowed "u" 0]).is_allowed "u" 0).1 = false →
      (((runCalls (⟨1, 60, []⟩ : RateLimiter)
          [Call.isAllowed "u" 0]).is_allowed "u" 0).2.1.current_requests :
        ℤ) = 1) :=
  ⟨(c9_bounded_state 1 60 ⟨1, 60, []⟩ rfl [Call.isAllowed "u" 0]).1,
    (c9_bounded_state 1 60 ⟨1, 60, []⟩ rfl [Call.isAllowed "u" 0]).2 "u" 0⟩

/-- Refinement of a fresh limiter's mixed trace (any interleaving of
`is_allowed` and `get_status` on one key) by `simRun` on the `is_allowed`
call times alone. -/
theorem runOps_fresh (N Wz : ℤ) (hWz : 0 ≤ Wz) (k : String)
    (ops : List Op) (hch : List.Chain' (· ≤ ·) (ops.map opTime)) :
    runOps ⟨N, Wz, []⟩ k ops =
      simRun N (Wz : ℚ) [] ((ops.filter isCheck).map opTime) := by
  cases ops with
  | nil => rfl
  | cons o ops' =>
      have hc₀ : Coupled ⟨N, Wz, []⟩ k [] (opTime o) :=
        ⟨by simp [dictGet, dictFind], List.Pairwise.nil, by simp⟩
      refine runOps_eq_simRun k (o :: ops') ⟨N, Wz, []⟩ [] (opTime o) hWz
        hc₀ ?_
      rw [List.map_cons]
      rw [List.map_cons] at hch
      exact List.chain'_cons.mpr ⟨le_refl _, hch⟩

/-- C5: `get_status` never appends a timestamp (its stored sequence after
the call is a suffix of the one before), and inserting any number of
`get_status` calls between the `is_allowed` calls of a fixed key's trace —
at timestamps consistent with the non-decreasing order — leaves the
sequence of `is_allowed` results unchanged. -/
theorem c5_status_noninterference (N Wz : ℤ) (rl : RateLimiter)
    (hinit : RateLimiter.init N Wz = Except.ok rl) (k : String)
    (ops : List Op) (hch : List.Chain' (· ≤ ·) (ops.map opTime)) :
    runOps rl k ops = runOps rl k (ops.filter isCheck) ∧
    ∀ (rl' : RateLimiter) (k' : String) (now : ℚ),
      dictGet (rl'.get_status k' now).2.requests k' <:+
        dictGet rl'.requests k' := by
  obtain ⟨hN, hWz, hrl⟩ := init_ok N Wz rl hinit
  subst hrl
  constructor
  · have h1 := runOps_fresh N Wz hWz.le k ops hch
    have hch2 : List.Chain' (· ≤ ·) ((ops.filter isCheck).map opTime) :=
      hch.sublist (List.Sublist.map opTime (List.filter_sublist ops))
    have h2 := runOps_fresh N Wz hWz.le k (ops.filter isCheck) hch2
    have hidem : (ops.filter isCheck).filter isCheck = ops.filter isCheck :=
      List.filter_eq_self.mpr fun a ha => (List.mem_filter.mp ha).2
    rw [h1, h2, hidem]
  · intro rl' k' now
    rw [get_status_state]
    dsimp only
    rw [dictGet_dictSet_self]
    exact evict_suffix _ _

/-- Witness for C5: limiter `(1, 60)`, trace
`check 0; status 0; check 0` on key `"u"`. -/
theorem c5_status_noninterference_witness :
    List.Chain' (· ≤ ·)
      (([Op.check 0, Op.status 0, Op.check 0] : List Op).map opTime) ∧
    runOps (⟨1, 60, []⟩ : RateLimiter) "u"
        [Op.check 0, Op.status 0, Op.check 0] =
      runOps (⟨1, 60, []⟩ : RateLimiter) "u"
        (([Op.check 0, Op.status 0, Op.check 0] : List Op).filter
          isCheck) :=
  ⟨by simp [opTime, List.chain'_cons, List.chain'_singleton],
    (c5_status_noninterference 1 60 ⟨1, 60, []⟩ rfl "u"
      [Op.check 0, Op.status 0, Op.check 0]
      (by simp [opTime, List.chain'_cons, List.chain'_singleton])).1⟩

/-- C7: for distinct keys `k1 ≠ k2`, an `is_allowed`, `get_status` or
`reset_user` call on `k1` leaves `k2`'s stored record unchanged; and the
results and `k2`-record evolution of operations on `k2` depend only on the
configuration and `k2`'s record, so an operation on `k1` cannot change the
outcome of any later operation on `k2`. -/
theorem c7_key_independence (rl : RateLimiter) (k1 k2 : String)
    (hne : k1 ≠ k2) (now u : ℚ) :
    dictGet (rl.is_allowed k1 now).2.2.requests k2 =
        dictGet rl.requests k2 ∧
    dictGet (rl.get_status k1 now).2.requests k2 =
        dictGet rl.requests k2 ∧
    dictGet (rl.reset_user k1).requests k2 = dictGet rl.requests k2 ∧
    (∀ rl' : RateLimiter,
      rl'.max_requests = rl.max_requests →
      rl'.window_seconds = rl.window_seconds →
      dictGet rl'.requests k2 = dictGet rl.requests k2 →
      (rl'.is_allowed k2 u).1 = (rl.is_allowed k2 u).1 ∧
      (rl'.is_allowed k2 u).2.1 = (rl.is_allowed k2 u).2.1 ∧
      dictGet (rl'.is_allowed k2 u).2.2.requests k2 =
        dictGet (rl.is_allowed k2 u).2.2.requests k2 ∧
      (rl'.get_status k2 u).1 = (rl.get_status k2 u).1 ∧
      dictGet (rl'.get_status k2 u).2.requests k2 =
        dictGet (rl.get_status k2 u).2.requests k2) := by
  refine ⟨?_, ?_, ?_, ?_⟩
  · rw [is_allowed_state]
    dsimp only
    rw [dictGet_dictSet_ne _ _ _ _ hne]
  · rw [get_status_state]
    dsimp only
    rw [dictGet_dictSet_ne _ _ _ _ hne]
  · unfold RateLimiter.reset_user
    split
    · dsimp only
      unfold dictGet
      rw [dictFind_dictDel_ne _ _ _ hne]
    · rfl
  · intro rl' hm hw hg
    have hev : evicted rl' k2 u = evicted rl k2 u := by
      unfold evicted
      rw [hg, hw]
    refine ⟨?_, ?_, ?_, ?_, ?_⟩
    · rw [is_allowed_fst, is_allowed_fst, hev, hm]
    · rw [is_allowed_info, is_allowed_info, hev, hm, hw]
    · rw [is_allowed_state, is_allowed_state]
      dsimp only
      rw [dictGet_dictSet_self, dictGet_dictSet_self, hev, hm]
    · rw [get_status_info, get_status_info, hev, hm, hw]
    · rw [get_status_state, get_status_state]
      dsimp only
      rw [dictGet_dictSet_self, dictGet_dictSet_self, hev]

/-- Witness for C7: keys `"a" ≠ "b"`; an `is_allowed` call on `"a"`
leaves `"b"`'s record unchanged. -/
theorem c7_key_independence_witness :
    "a" ≠ "b" ∧
    dictGet ((RateLimiter.mk 1 60 [("a", [0])]).is_allowed "a" 1
        ).2.2.requests "b" =
      dictGet (RateLimiter.mk 1 60 [("a", [0])]).requests "b" :=
  ⟨by decide,
    (c7_key_independence ⟨1, 60, [("a", [0])]⟩ "a" "b" (by decide) 1 1).1⟩

/-- C8: `reset_user(key)` unconditionally discards the key's entire record
(no binding remains), is a no-op (and raises no error) when the key is
absent, and makes the next `is_allowed` call for that key return
`allowed=true`; `reset_all` discards every key's record so the next
`is_allowed` call for every key returns `allowed=true`; neither reset
changes `max_requests` or `window_seconds`. -/
theorem c8_reset_semantics (rl : RateLimiter) (k : String) (now : ℚ)
    (hmax : 0 < rl.max_requests) :
    dictFind (rl.reset_user k).requests k = none ∧
    (dictHas rl.requests k = false → rl.reset_user k = rl) ∧
    ((rl.reset_user k).is_allowed k now).1 = true ∧
    (rl.reset_user k).max_requests = rl.max_requests ∧
    (rl.reset_user k).window_seconds = rl.window_seconds ∧
    rl.reset_all.requests = [] ∧
    (∀ k' : String, (rl.reset_all.is_allowed k' now).1 = true) ∧
    rl.reset_all.max_requests = rl.max_requests ∧
    rl.reset_all.window_seconds = rl.window_seconds := by
  have hconfig :
      (rl.reset_user k).max_requests = rl.max_requests ∧
      (rl.reset_user k).window_seconds = rl.window_seconds :=
    applyCall_config rl (Call.resetUser k)
  have hfind : dictFind (rl.reset_user k).requests k = none := by
    unfold RateLimiter.reset_user
    split
    · dsimp only
      exact dictFind_dictDel_self _ _
    · next h =>
        unfold dictHas at h
        cases hf : dictFind rl.requests k with
        | none => rfl
        | some v => rw [hf] at h; simp at h
  refine ⟨hfind, ?_, ?_, hconfig.1, hconfig.2, rfl, ?_, rfl, rfl⟩
  · intro h
    unfold RateLimiter.reset_user
    rw [if_neg (by rw [h]; exact Bool.false_ne_true)]
  · have hget : dictGet (rl.reset_user k).requests k = [] := by
      unfold dictGet
      rw [hfind]
      rfl
    have hev : evicted (rl.reset_user k) k now = [] := by
      unfold evicted
      rw [hget]
      rfl
    rw [is_allowed_fst, hev]
    have hm : (0 : ℤ) < (rl.reset_user k).max_requests := by
      rw [hconfig.1]
      exact hmax
    simpa using hm
  · intro k'
    have hev : evicted rl.reset_all k' now = [] := rfl
    rw [is_allowed_fst, hev]
    simpa using hmax

/-- Witness for C8: limiter `(1, 60)` with one stored timestamp for
`"u"`; resetting `"u"` (or everything) re-admits `"u"` at time 0. -/
theorem c8_reset_semantics_witness :
    (0 : ℤ) < (RateLimiter.mk 1 60 [("u", [0])]).max_requests ∧
    (((RateLimiter.mk 1 60 [("u", [0])]).reset_user "u").is_allowed "u"
        0).1 = true ∧
    ((RateLimiter.mk 1 60 [("u", [0])]).reset_all.is_allowed "u" 0).1 =
      true :=
  ⟨by norm_num,
    (c8_reset_semantics ⟨1, 60, [("u", [0])]⟩ "u" 0 (by norm_num)).2.2.1,
    (c8_reset_semantics ⟨1, 60, [("u", [0])]⟩ "u" 0
        (by norm_num)).2.2.2.2.2.2.1 "u"⟩

/-- C10: no operation validates the key — for the empty string (and every
other string) the operations are total and uniform in the key: a first
access through `is_allowed` or `get_status` creates a record for the key
(initially empty for `get_status`), and the deque indexing on the
rejection path of `is_allowed` is safe because a rejection implies the
post-eviction sequence is non-empty when `max_requests ≥ 1`. -/
theorem c10_arbitrary_keys (rl : RateLimiter) (key : String) (now : ℚ) :
    (dictHas rl.requests key = false →
      dictHas (rl.get_status key now).2.requests key = true ∧
      dictGet (rl.get_status key now).2.requests key = []) ∧
    (dictHas rl.requests key = false →
      dictHas (rl.is_allowed key now).2.2.requests key = true) ∧
    (0 < rl.max_requests → (rl.is_allowed key now).1 = false →
      evicted rl key now ≠ []) := by
  refine ⟨?_, ?_, ?_⟩
  · intro h
    have hget : dictGet rl.requests key = [] :=
      dictGet_eq_nil_of_not_has _ _ h
    have hev : evicted rl key now = [] := by
      unfold evicted
      rw [hget]
      rfl
    rw [get_status_state]
    dsimp only
    constructor
    · unfold dictHas
      rw [dictFind_dictSet_self]
      rfl
    · rw [dictGet_dictSet_self, hev]
  · intro h
    rw [is_allowed_state]
    dsimp only
    unfold dictHas
    rw [dictFind_dictSet_self]
    rfl
  · intro hmax hfalse
    rw [is_allowed_fst] at hfalse
    have hge := not_lt.mp (of_decide_eq_false hfalse)
    intro hnil
    rw [hnil] at hge
    simp at hge
    exact absurd hge (not_le.mpr hmax)

/-- Witness for C10: empty-string key on a fresh limiter — the first
`get_status` access creates an (empty) record for `""`. -/
theorem c10_arbitrary_keys_witness :
    dictHas (RateLimiter.mk 1 60 []).requests "" = false ∧
    dictHas ((RateLimiter.mk 1 60 []).get_status "" 0).2.requests "" =
      true :=
  ⟨rfl, ((c10_arbitrary_keys ⟨1, 60, []⟩ "" 0).1 rfl).1⟩

end RateLimiterSpec
